import Mathlib

/-!
Verification development for the `csv_editor` sparse-grid / rule-engine core
(`csv_editor/run.py`).  Python strings are modelled as `List Char`, Python
`dict`s as association lists, and any Python statement that can raise an
exception is modelled in the `Option` monad (`none` = a raised exception that
propagates to the caller).
-/

/-- A Python string, modelled as its list of characters (ASCII in practice). -/
abbrev PyStr := List Char

/-- `hasQQ v` models the Python test `"??" in v`: some adjacent pair of
characters is `"??"`. -/
def hasQQ : PyStr → Bool
  | [] => false
  | [_] => false
  | c1 :: c2 :: rest => (c1 = '?' && c2 = '?') || hasQQ (c2 :: rest)

/-- `splitSS v` models Python `v.split("??")`: split on every non-overlapping
occurrence of the two-character separator, scanning left to right. -/
def splitSS : PyStr → List PyStr
  | [] => [[]]
  | [c] => [[c]]
  | c1 :: c2 :: rest =>
    if c1 = '?' ∧ c2 = '?' then [] :: splitSS rest
    else
      match splitSS (c2 :: rest) with
      | h :: t => (c1 :: h) :: t
      | [] => [[c1]]

/-- Whitespace characters stripped by Python `int(str)` (ASCII fragment). -/
def isPySpace (c : Char) : Bool :=
  c = ' ' || c = '\t' || c = '\n' || c = '\r' || c = '\x0b' || c = '\x0c'

/-- Digit-run parser for Python `int`: digits with single underscores allowed
between digits (CPython `int()` grammar, ASCII digits). -/
def digitsVal : PyStr → Nat → Option Nat
  | [], acc => some acc
  | c :: rest, acc =>
    if c.isDigit then digitsVal rest (acc * 10 + (c.toNat - 48))
    else if c = '_' then
      match rest with
      | d :: rest' =>
        if d.isDigit then digitsVal rest' (acc * 10 + (d.toNat - 48)) else none
      | [] => none
    else none

/-- Parse a non-empty digit sequence (first character must be a digit). -/
def parseDigits : PyStr → Option Nat
  | [] => none
  | c :: rest => if c.isDigit then digitsVal rest (c.toNat - 48) else none

/-- Models CPython `int(s)` on ASCII strings: strip whitespace, optional
sign, then digits (underscores allowed between digits). `none` models a
raised `ValueError`. -/
def parsePyInt (s : PyStr) : Option Int :=
  let cs := ((s.dropWhile isPySpace).reverse.dropWhile isPySpace).reverse
  match cs with
  | '+' :: rest => (parseDigits rest).map Int.ofNat
  | '-' :: rest => (parseDigits rest).map (fun n => -(Int.ofNat n))
  | _ => (parseDigits cs).map Int.ofNat

/-- The `lines 49-55` `Cell` class: a (row, col) pair of Python ints. -/
structure Cell where
  row : Int
  col : Int
deriving DecidableEq

/-- One row bucket of the spreadsheet: the inner `dict` from column to raw
cell string, modelled as an association list. -/
abbrev Bucket := List (Int × PyStr)

/-- `Spreadsheet.data`: the outer `dict` from row to bucket. -/
abbrev GridData := List (Int × Bucket)

/-- Association-list lookup, modelling Python `d[k]` / `k in d`. -/
def lookupA {α : Type} : List (Int × α) → Int → Option α
  | [], _ => none
  | (k', v) :: rest, k => if k' = k then some v else lookupA rest k

/-- Association-list store, modelling Python `d[k] = v`: overwrite the
existing entry for `k`, or append a new one. -/
def updA {α : Type} : List (Int × α) → Int → α → List (Int × α)
  | [], k, v => [(k, v)]
  | (k', v') :: rest, k, v =>
    if k' = k then (k, v) :: rest else (k', v') :: updA rest k v

/-- Association-list removal, modelling Python `d.pop(k)` (a dict holds at
most one entry per key, so removing every entry for `k` is the same). -/
def eraseA {α : Type} (l : List (Int × α)) (k : Int) : List (Int × α) :=
  l.filter (fun kv => kv.1 ≠ k)

/-- `setData d r c v` models `data[r][c] = v`, creating the row bucket first
when absent (`Spreadsheet.set`, value present). -/
def setData (d : GridData) (r c : Int) (v : PyStr) : GridData :=
  let bucket := match lookupA d r with
    | none => []
    | some b => b
  updA d r (updA bucket c v)

/-- `delData d r c` models `data[r].pop(c)` guarded by the membership checks
of `Spreadsheet.set` with a `None` value. -/
def delData (d : GridData) (r c : Int) : GridData :=
  match lookupA d r with
  | none => d
  | some b => if (lookupA b c).isSome then updA d r (eraseA b c) else d

/-- The `Spreadsheet` class: sparse dict-of-dicts storage plus cursor and
mark cells. -/
structure Spreadsheet where
  data : GridData
  cursor : Cell
  mark : Cell
deriving DecidableEq

/-- `Spreadsheet.get`: the stored raw value at a cell, or `None`. -/
def Spreadsheet.get (s : Spreadsheet) (c : Cell) : Option PyStr :=
  match lookupA s.data c.row with
  | none => none
  | some b => lookupA b c.col

/-- `Spreadsheet.set`: a present value stores/overwrites, an absent value
deletes the entry when one exists. -/
def Spreadsheet.set (s : Spreadsheet) (c : Cell) (val : Option PyStr) : Spreadsheet :=
  match val with
  | some v => { s with data := setData s.data c.row c.col v }
  | none => { s with data := delData s.data c.row c.col }

/-- `Spreadsheet.delete`: defined as `set(cell, None)` in the source. -/
def Spreadsheet.delete (s : Spreadsheet) (c : Cell) : Spreadsheet :=
  s.set c none

/-- `Spreadsheet.get_bounding_box`: componentwise min / max of cursor and
mark, both bounds inclusive. -/
def Spreadsheet.get_bounding_box (s : Spreadsheet) : Cell × Cell :=
  (⟨min s.cursor.row s.mark.row, min s.cursor.col s.mark.col⟩,
   ⟨max s.cursor.row s.mark.row, max s.cursor.col s.mark.col⟩)

/-- Python `range(lo, hi + 1)` over ints: `[lo, lo+1, ..., hi]`. -/
def intRange (lo hi : Int) : List Int :=
  (List.range (hi + 1 - lo).toNat).map (fun i => lo + Int.ofNat i)

/-- Inner loop of `get_selected_cells`: iterate the column range for one row.
When `include_empty` is false the Python code evaluates `self.data[row]`,
which raises `KeyError` (modelled by `none`) when the row bucket is absent. -/
def selectCols (s : Spreadsheet) (ie : Bool) (row : Int) : List Int → Option (List Cell)
  | [] => some []
  | col :: cols =>
    if ie then (selectCols s ie row cols).map (fun l => Cell.mk row col :: l)
    else
      match lookupA s.data row with
      | none => none
      | some b =>
        if (lookupA b col).isSome then
          (selectCols s ie row cols).map (fun l => Cell.mk row col :: l)
        else selectCols s ie row cols

/-- Outer loop of `get_selected_cells`: a row is visited when
`include_empty or row in self.data` holds. -/
def selectRows (s : Spreadsheet) (ie : Bool) (cols : List Int) : List Int → Option (List Cell)
  | [] => some []
  | row :: rows =>
    if ie || (lookupA s.data row).isSome then do
      let here ← selectCols s ie row cols
      let rest ← selectRows s ie cols rows
      pure (here ++ rest)
    else selectRows s ie cols rows

/-- `Spreadsheet.get_selected_cells`: enumerate the bounding box, row by row,
column by column, appending each selected cell. -/
def Spreadsheet.get_selected_cells (s : Spreadsheet) (ie : Bool) : Option (List Cell) :=
  let bb := s.get_bounding_box
  selectRows s ie (intRange bb.1.col bb.2.col) (intRange bb.1.row bb.2.row)

/-- `colorize` inside `iterate_function_v2`: a `"0"` outcome becomes `None`
(the cell is cleared), anything else becomes the live tag. -/
def colorizeV2 (v : PyStr) : Option PyStr :=
  if v = "0".toList then none else some ("bg(0,0,0);fg(0,0,0)??1".toList)

/-- `get_content` inside `iterate_function_v2`: absent → 0; with a `"??"`
separator, `int` of `split("??")[1]`; otherwise `int` of the raw value.
`none` models a raised `ValueError`. -/
def getContentV2 : Option PyStr → Option Int
  | none => some 0
  | some v =>
    if hasQQ v then
      match splitSS v with
      | _ :: c :: _ => parsePyInt c
      | _ => none
    else parsePyInt v

/-- The eight Moore-neighbor cells, in the order the `neighbours` list
literal of `iterate_function_v2` reads them. -/
def v2NeighborCells (c : Cell) : List Cell :=
  [⟨c.row - 1, c.col - 1⟩, ⟨c.row - 1, c.col⟩, ⟨c.row - 1, c.col + 1⟩,
   ⟨c.row, c.col - 1⟩, ⟨c.row, c.col + 1⟩,
   ⟨c.row + 1, c.col - 1⟩, ⟨c.row + 1, c.col⟩, ⟨c.row + 1, c.col + 1⟩]

/-- Evaluate an option-valued function over a list, propagating the first
failure (models a Python list literal whose elements may raise). -/
def mapOptList {α β : Type} (f : α → Option β) : List α → Option (List β)
  | [] => some []
  | a :: l => do
    let b ← f a
    let bs ← mapOptList f l
    pure (b :: bs)

/-- `iterate_function_v2` (life-like rule): decode the target's state and
the eight Moore neighbors, sum the neighbor states, and apply the 2/3
survival, 3 birth law.  `none` models a propagated parse error. -/
def iterate_function_v2 (cell : Cell) (s : Spreadsheet) : Option (Cell × Option PyStr) := do
  let current_state ← getContentV2 (s.get ⟨cell.row, cell.col⟩)
  let neighbours ← mapOptList (fun q => getContentV2 (s.get q)) (v2NeighborCells cell)
  let alive_neighbours := neighbours.sum
  if current_state = 1 then
    if alive_neighbours < 2 ∨ alive_neighbours > 3 then pure (cell, colorizeV2 ("0".toList))
    else pure (cell, colorizeV2 ("1".toList))
  else
    if alive_neighbours = 3 then pure (cell, colorizeV2 ("1".toList))
    else pure (cell, colorizeV2 ("0".toList))

/-- The fixed rule table string of `iterate_function_v1`. -/
def ruleStr : String := "01101110"

/-- `colorize` inside `iterate_function_v1`: `"0"` gets the white/dead tag,
anything else the black/live tag. -/
def colorizeV1 (v : PyStr) : PyStr :=
  if v = "0".toList then "bg(255,255,255);fg(255,255,255)??0".toList
  else "bg(0,0,0);fg(0,0,0)??1".toList

/-- `get_content` inside `iterate_function_v1`: with a separator, the
`split("??")[1]` segment; otherwise the value itself (possibly `None`). -/
def getContentV1 : Option PyStr → Option PyStr
  | none => none
  | some v =>
    if hasQQ v then
      match splitSS v with
      | _ :: c :: _ => some c
      | _ => none
    else some v

/-- The Python membership test `parent in ["0", "1"]`. -/
def isValidParent (p : Option PyStr) : Bool :=
  p == some ("0".toList) || p == some ("1".toList)

/-- The three parent values `tl, tc, tr` read by `iterate_function_v1`,
in source order. -/
def v1Parents (cell : Cell) (s : Spreadsheet) : List (Option PyStr) :=
  [getContentV1 (s.get ⟨cell.row - 1, cell.col - 1⟩),
   getContentV1 (s.get ⟨cell.row - 1, cell.col⟩),
   getContentV1 (s.get ⟨cell.row - 1, cell.col + 1⟩)]

/-- The `val_map` dictionary of `iterate_function_v1`: 3-bit parent pattern
to the one-character string at the matching index of `ruleStr`
(MSB-first key ordering `111,110,101,100,011,010,001,000`). -/
def val_map (k : PyStr) : Option PyStr :=
  if k = "111".toList then (ruleStr.toList.get? 0).map (fun ch => [ch])
  else if k = "110".toList then (ruleStr.toList.get? 1).map (fun ch => [ch])
  else if k = "101".toList then (ruleStr.toList.get? 2).map (fun ch => [ch])
  else if k = "100".toList then (ruleStr.toList.get? 3).map (fun ch => [ch])
  else if k = "011".toList then (ruleStr.toList.get? 4).map (fun ch => [ch])
  else if k = "010".toList then (ruleStr.toList.get? 5).map (fun ch => [ch])
  else if k = "001".toList then (ruleStr.toList.get? 6).map (fun ch => [ch])
  else if k = "000".toList then (ruleStr.toList.get? 7).map (fun ch => [ch])
  else none

/-- Python string concatenation `tl + tc + tr`; `none` models the
`TypeError` raised when one operand is `None` (unreachable behind the
3-valid-parents guard). -/
def concat3 : Option PyStr → Option PyStr → Option PyStr → Option PyStr
  | some a, some b, some c => some (a ++ b ++ c)
  | _, _, _ => none

/-- `iterate_function_v1` (directional growth rule): occupied cells pass
through unchanged; empty cells look at the three parents above. -/
def iterate_function_v1 (cell : Cell) (s : Spreadsheet) : Option (Cell × Option PyStr) :=
  match s.get cell with
  | some v => some (cell, some v)
  | none =>
    let tl := getContentV1 (s.get ⟨cell.row - 1, cell.col - 1⟩)
    let tc := getContentV1 (s.get ⟨cell.row - 1, cell.col⟩)
    let tr := getContentV1 (s.get ⟨cell.row - 1, cell.col + 1⟩)
    let count := ([tl, tc, tr].countP isValidParent)
    if count < 3 ∧ count > 0 then some (cell, some (colorizeV1 ("0".toList)))
    else if count = 0 then some (cell, none)
    else do
      let key ← concat3 tl tc tr
      let bit ← val_map key
      pure (cell, some (colorizeV1 bit))

/-- Phase 1 of the `K_SPACE` handler: the `result` list built by appending
`iterate_function_v2(cell, self.spreadsheet)` for each selected cell, the
spreadsheet unchanged throughout the loop. -/
def collectResults (s : Spreadsheet) : List Cell → Option (List (Cell × Option PyStr))
  | [] => some []
  | c :: rest => do
    let r ← iterate_function_v2 c s
    let rs ← collectResults s rest
    pure (r :: rs)

/-- Phase 2 of the `K_SPACE` handler: `self.spreadsheet.set(cell, val)` for
each collected pair, in order. -/
def applyResults (s : Spreadsheet) (rs : List (Cell × Option PyStr)) : Spreadsheet :=
  rs.foldl (fun sp r => sp.set r.1 r.2) s

/-- The full `K_SPACE` branch of `App.parse_keyboard_input_down`: enumerate
the selection with `include_empty=True`, collect every rule result, then
apply the batch. -/
def evolveSelection (s : Spreadsheet) : Option Spreadsheet := do
  let cells ← s.get_selected_cells true
  let rs ← collectResults s cells
  pure (applyResults s rs)

/-- The cell-decode step of `App.draw` (lines 276-280): when `"??" in text`,
the two-way unpack `formatting, content_text = text.split("??")` succeeds
only when the split has exactly two parts (`none` models the `ValueError`
raised otherwise); without a separator the result is `(None, text)`. -/
def decodeDraw (text : PyStr) : Option (Option PyStr × PyStr) :=
  if hasQQ text then
    match splitSS text with
    | [f, c] => some (some f, c)
    | _ => none
  else some (none, text)

/-- Consume an expected literal prefix, returning the remainder. -/
def stripPre : List Char → List Char → Option (List Char)
  | [], cs => some cs
  | p :: ps, c :: cs => if c = p then stripPre ps cs else none
  | _ :: _, [] => none

/-- Decimal value of a digit run (the `int()` applied to a regex group). -/
def digitsToNat (ds : List Char) : Nat :=
  ds.foldl (fun a c => a * 10 + (c.toNat - 48)) 0

/-- Attempt to read `tag ++ "(" ++ d1 ++ "," ++ d2 ++ "," ++ d3 ++ ")"` at
the head of `cs`, where each `dᵢ` is a maximal non-empty digit run — the
shape the regex `tag\((\d+),(\d+),(\d+)\)` requires at one position. -/
def parseColorAt (tag : List Char) (cs : List Char) : Option (Nat × Nat × Nat) := do
  let r0 ← stripPre (tag ++ ['(']) cs
  let (d1, r1) := r0.span Char.isDigit
  if d1 = [] then none else do
  let r2 ← stripPre [','] r1
  let (d2, r2b) := r2.span Char.isDigit
  if d2 = [] then none else do
  let r3 ← stripPre [','] r2b
  let (d3, r3b) := r3.span Char.isDigit
  if d3 = [] then none else do
  let _ ← stripPre [')'] r3b
  pure (digitsToNat d1, digitsToNat d2, digitsToNat d3)

/-- Models `re.compile(r".*tag\((\d+),(\d+),(\d+)\).*").match(s)`: the match
is anchored at the start, the leading greedy `.*` never crosses a newline
and prefers the latest viable start position, so the result is the last
occurrence of the directive that is not preceded by a newline. -/
def matchColor (tag : List Char) : List Char → Option (Nat × Nat × Nat)
  | [] => none
  | c :: rest =>
    (if c = '\n' then none else matchColor tag rest) <|> parseColorAt tag (c :: rest)

/-- The color-extraction step of `App.draw` (lines 283-302): background
defaults to `None`, foreground to black `[0, 0, 0]`; each regex match, when
it succeeds, supplies the three integer channels. -/
def extract_colors (formatting : Option PyStr) : Option (Nat × Nat × Nat) × (Nat × Nat × Nat) :=
  match formatting with
  | none => (none, (0, 0, 0))
  | some f =>
    let bg := matchColor ['b', 'g'] f
    let fg := (matchColor ['f', 'g'] f).getD (0, 0, 0)
    (bg, fg)

/-- The spec's description of `selected_positions(include_empty=true)`
(§4.3): every position of the inclusive bounding box in row-major order —
ascending row, then ascending column within a row. -/
def specSelectedPositions (s : Spreadsheet) : List Cell :=
  let bb := s.get_bounding_box
  (intRange bb.1.row bb.2.row).bind
    (fun r => (intRange bb.1.col bb.2.col).map (fun c => Cell.mk r c))

/-- Grid storage states reachable by any sequence of `set` / `delete`
calls starting from the empty grid of `Spreadsheet.__init__`. -/
inductive ReachableData : GridData → Prop where
  | empty : ReachableData []
  | setStep (d : GridData) (r c : Int) (v : PyStr) :
      ReachableData d → ReachableData (setData d r c v)
  | delStep (d : GridData) (r c : Int) :
      ReachableData d → ReachableData (delData d r c)

theorem lookupA_updA {α : Type} (l : List (Int × α)) (k k' : Int) (v : α) :
    lookupA (updA l k v) k' = if k' = k then some v else lookupA l k' := by
  induction l with
  | nil =>
    simp only [updA, lookupA]
    split_ifs <;> first | rfl | (exfalso; omega)
  | cons kv rest ih =>
    obtain ⟨k₀, v₀⟩ := kv
    by_cases h : k₀ = k
    · subst h
      simp only [updA, if_pos rfl, lookupA]
      split_ifs <;> first | rfl | (exfalso; omega)
    · simp only [updA, if_neg h, lookupA, ih]
      split_ifs <;> first | rfl | (exfalso; omega)

theorem lookupA_eraseA {α : Type} (l : List (Int × α)) (k k' : Int) :
    lookupA (eraseA l k) k' = if k' = k then none else lookupA l k' := by
  induction l with
  | nil =>
    simp only [eraseA, List.filter_nil, lookupA]
    split_ifs <;> rfl
  | cons kv rest ih =>
    obtain ⟨k₀, v₀⟩ := kv
    by_cases h : k₀ = k
    · subst h
      have he : eraseA ((k₀, v₀) :: rest) k₀ = eraseA rest k₀ := by
        simp [eraseA, List.filter_cons]
      rw [he, ih]
      by_cases h' : k' = k₀
      · rw [if_pos h', if_pos h']
      · rw [if_neg h', if_neg h']
        simp only [lookupA, if_neg (fun hh : k₀ = k' => h' hh.symm)]
    · have he : eraseA ((k₀, v₀) :: rest) k = (k₀, v₀) :: eraseA rest k := by
        simp [eraseA, List.filter_cons, h]
      rw [he]
      show (if k₀ = k' then some v₀ else lookupA (eraseA rest k) k') = _
      rw [ih]
      by_cases h2 : k₀ = k'
      · rw [if_pos h2, if_neg (by omega : ¬ k' = k)]
        simp only [lookupA, if_pos h2]
      · rw [if_neg h2]
        by_cases h3 : k' = k
        · rw [if_pos h3, if_pos h3]
        · rw [if_neg h3, if_neg h3]
          simp only [lookupA, if_neg h2]

theorem cell_eq_iff (p q : Cell) : p = q ↔ p.row = q.row ∧ p.col = q.col := by
  cases p; cases q; simp [Cell.mk.injEq]

/-- Two-level lookup into the dict-of-dicts storage. -/
def getData (d : GridData) (r c : Int) : Option PyStr :=
  match lookupA d r with
  | none => none
  | some b => lookupA b c

theorem get_eq_getData (s : Spreadsheet) (q : Cell) : s.get q = getData s.data q.row q.col := rfl

theorem getData_setData (d : GridData) (r c : Int) (v : PyStr) (qr qc : Int) :
    getData (setData d r c v) qr qc = if qr = r ∧ qc = c then some v else getData d qr qc := by
  unfold getData setData
  rw [lookupA_updA]
  by_cases hr : qr = r
  · rw [if_pos hr]
    subst hr
    show lookupA (updA (match lookupA d qr with | none => [] | some b => b) c v) qc = _
    rw [lookupA_updA]
    by_cases hc : qc = c
    · simp [hc]
    · cases hb : lookupA d qr <;> simp [lookupA, hb, hc]
  · rw [if_neg hr, if_neg (fun h => hr h.1)]

theorem getData_delData (d : GridData) (r c : Int) (qr qc : Int) :
    getData (delData d r c) qr qc = if qr = r ∧ qc = c then none else getData d qr qc := by
  unfold getData delData
  cases hb : lookupA d r with
  | none =>
    split_ifs with h
    · obtain ⟨h1, h2⟩ := h
      subst h1
      simp [hb]
    · rfl
  | some b =>
    by_cases hc : (lookupA b c).isSome
    · simp only [hc, if_true]
      rw [lookupA_updA]
      by_cases hr : qr = r
      · rw [if_pos hr]
        show lookupA (eraseA b c) qc = _
        rw [lookupA_eraseA]
        subst hr
        by_cases hqc : qc = c <;> simp [hqc, hb]
      · rw [if_neg hr, if_neg (fun h => hr h.1)]
    · simp only [hc, if_false, Bool.false_eq_true]
      split_ifs with h
      · obtain ⟨h1, h2⟩ := h
        subst h1; subst h2
        simp only [hb]
        cases hx : lookupA b qc with
        | none => rfl
        | some w => simp [hx] at hc
      · rfl

/-- The storage contract of `Spreadsheet.set`: dual-purpose write/delete,
read back through `get`. -/
theorem get_set (s : Spreadsheet) (c q : Cell) (v : Option PyStr) :
    (s.set c v).get q = if q = c then v else s.get q := by
  cases v with
  | some w =>
    show getData (setData s.data c.row c.col w) q.row q.col = _
    rw [getData_setData]
    by_cases h : q = c
    · rw [if_pos ((cell_eq_iff q c).mp h), if_pos h]
    · rw [if_neg (fun hh => h ((cell_eq_iff q c).mpr hh)), if_neg h, get_eq_getData]
  | none =>
    show getData (delData s.data c.row c.col) q.row q.col = _
    rw [getData_delData]
    by_cases h : q = c
    · rw [if_pos ((cell_eq_iff q c).mp h), if_pos h]
    · rw [if_neg (fun hh => h ((cell_eq_iff q c).mpr hh)), if_neg h, get_eq_getData]

theorem selectCols_true (s : Spreadsheet) (row : Int) (cols : List Int) :
    selectCols s true row cols = some (cols.map (fun c => Cell.mk row c)) := by
  induction cols with
  | nil => rfl
  | cons col cols ih => simp [selectCols, ih]

theorem selectRows_true (s : Spreadsheet) (cols rows : List Int) :
    selectRows s true cols rows =
      some (rows.bind (fun r => cols.map (fun c => Cell.mk r c))) := by
  induction rows with
  | nil => rfl
  | cons row rows ih =>
    simp [selectRows, selectCols_true, ih]

/-- With `include_empty=True`, `get_selected_cells` enumerates exactly the
row-major rectangle the spec describes. -/
theorem get_selected_cells_true (s : Spreadsheet) :
    s.get_selected_cells true = some (specSelectedPositions s) := by
  unfold Spreadsheet.get_selected_cells specSelectedPositions
  exact selectRows_true s _ _

theorem mem_intRange (lo hi x : Int) : x ∈ intRange lo hi ↔ lo ≤ x ∧ x ≤ hi := by
  constructor
  · intro h
    obtain ⟨i, hi', hx⟩ := List.mem_map.mp h
    rw [List.mem_range] at hi'
    simp only [Int.ofNat_eq_coe] at hx
    omega
  · intro h
    refine List.mem_map.mpr ⟨(x - lo).toNat, List.mem_range.mpr (by omega), ?_⟩
    simp only [Int.ofNat_eq_coe]
    omega

theorem nodup_intRange (lo hi : Int) : (intRange lo hi).Nodup := by
  refine List.Nodup.map ?_ (List.nodup_range (hi + 1 - lo).toNat)
  intro a b h
  simp only [Int.ofNat_eq_coe] at h
  omega

theorem nodup_specSelectedPositions (s : Spreadsheet) :
    (specSelectedPositions s).Nodup := by
  unfold specSelectedPositions
  rw [List.nodup_bind]
  constructor
  · intro r _
    exact List.Nodup.map
      (fun a b h => by simpa [Cell.mk.injEq] using h) (nodup_intRange _ _)
  · refine List.Pairwise.imp ?_ (nodup_intRange _ _)
    intro a b hab x hxa hxb
    simp only [List.mem_map] at hxa hxb
    obtain ⟨ca, _, rfl⟩ := hxa
    obtain ⟨cb, _, hcb⟩ := hxb
    exact hab ((by simpa [Cell.mk.injEq] using hcb : b = a ∧ cb = ca).1.symm)

theorem mem_specSelectedPositions (s : Spreadsheet) (q : Cell) :
    q ∈ specSelectedPositions s ↔
      (s.get_bounding_box.1.row ≤ q.row ∧ q.row ≤ s.get_bounding_box.2.row ∧
       s.get_bounding_box.1.col ≤ q.col ∧ q.col ≤ s.get_bounding_box.2.col) := by
  unfold specSelectedPositions
  simp only [List.mem_bind, List.mem_map, mem_intRange]
  constructor
  · rintro ⟨r, ⟨h1, h2⟩, c, ⟨⟨h3, h4⟩, rfl⟩⟩
    exact ⟨h1, h2, h3, h4⟩
  · rintro ⟨h1, h2, h3, h4⟩
    exact ⟨q.row, ⟨h1, h2⟩, q.col, ⟨h3, h4⟩, rfl⟩

theorem selectCols_false (s : Spreadsheet) (row : Int) (b : Bucket)
    (hb : lookupA s.data row = some b) (cols : List Int) :
    ∃ l, selectCols s false row cols = some l ∧
      ∀ c ∈ l, c.row = row ∧ (lookupA b c.col).isSome := by
  induction cols with
  | nil => exact ⟨[], rfl, by simp⟩
  | cons col cols ih =>
    obtain ⟨l, hl, hall⟩ := ih
    cases hx : lookupA b col with
    | some w =>
      refine ⟨Cell.mk row col :: l, ?_, ?_⟩
      · simp [selectCols, hb, hx, hl]
      · intro c hc
        rcases List.mem_cons.mp hc with rfl | hcl
        · exact ⟨rfl, by simp [hx]⟩
        · exact hall c hcl
    | none =>
      refine ⟨l, ?_, hall⟩
      simp [selectCols, hb, hx, hl]

theorem selectRows_false (s : Spreadsheet) (cols : List Int) (rows : List Int) :
    ∃ l, selectRows s false cols rows = some l ∧ ∀ c ∈ l, (s.get c).isSome := by
  induction rows with
  | nil => exact ⟨[], rfl, by simp⟩
  | cons row rows ih =>
    obtain ⟨l, hl, hall⟩ := ih
    cases hb : lookupA s.data row with
    | none =>
      refine ⟨l, ?_, hall⟩
      simp [selectRows, hb, hl]
    | some b =>
      obtain ⟨lr, hlr, hallr⟩ := selectCols_false s row b hb cols
      refine ⟨lr ++ l, ?_, ?_⟩
      · simp [selectRows, hb, hlr, hl]
      · intro c hc
        rcases List.mem_append.mp hc with hc1 | hc2
        · obtain ⟨hrow, hcol⟩ := hallr c hc1
          unfold Spreadsheet.get
          rw [hrow, hb]
          exact hcol
        · exact hall c hc2

/-- `selected_positions(include_empty=false)` always succeeds (no KeyError)
and yields only occupied positions. -/
theorem get_selected_cells_false (s : Spreadsheet) :
    ∃ l, s.get_selected_cells false = some l ∧ ∀ c ∈ l, (s.get c).isSome := by
  unfold Spreadsheet.get_selected_cells
  exact selectRows_false s _ _

theorem iterate_v2_fst (c : Cell) (s : Spreadsheet) (r : Cell × Option PyStr)
    (h : iterate_function_v2 c s = some r) : r.1 = c := by
  unfold iterate_function_v2 at h
  cases h1 : getContentV2 (s.get ⟨c.row, c.col⟩) with
  | none => rw [h1] at h; simp at h
  | some a =>
    rw [h1] at h
    cases h2 : mapOptList (fun q => getContentV2 (s.get q)) (v2NeighborCells c) with
    | none => rw [h2] at h; simp at h
    | some ns =>
      rw [h2] at h
      simp only [Option.bind_eq_bind, Option.some_bind] at h
      split_ifs at h <;>
        · simp only [Option.pure_def, Option.some.injEq] at h
          rw [← h]

theorem collectResults_forall2 (s : Spreadsheet) :
    ∀ (cells : List Cell) (rs : List (Cell × Option PyStr)),
      collectResults s cells = some rs →
      List.Forall₂ (fun c r => iterate_function_v2 c s = some r) cells rs := by
  intro cells
  induction cells with
  | nil =>
    intro rs h
    unfold collectResults at h
    simp only [Option.some.injEq] at h
    rw [← h]
    exact List.Forall₂.nil
  | cons c rest ih =>
    intro rs h
    unfold collectResults at h
    cases hr : iterate_function_v2 c s with
    | none => rw [hr] at h; simp at h
    | some r =>
      rw [hr] at h
      cases hrs : collectResults s rest with
      | none => rw [hrs] at h; simp at h
      | some rs' =>
        rw [hrs] at h
        simp only [Option.bind_eq_bind, Option.some_bind, Option.pure_def,
          Option.some.injEq] at h
        rw [← h]
        exact List.Forall₂.cons hr (ih rs' hrs)

theorem applyResults_get_of_notmem (q : Cell) :
    ∀ (rs : List (Cell × Option PyStr)) (s : Spreadsheet),
      (∀ r ∈ rs, r.1 ≠ q) → (applyResults s rs).get q = s.get q := by
  intro rs
  induction rs with
  | nil => intro s _; rfl
  | cons r rest ih =>
    intro s h
    show (applyResults (s.set r.1 r.2) rest).get q = _
    rw [ih (s.set r.1 r.2) (fun x hx => h x (List.mem_cons_of_mem _ hx))]
    rw [get_set]
    exact if_neg (fun hq => h r (List.mem_cons_self _ _) hq.symm)

theorem applyResults_get_of_mem (q : Cell) (v : Option PyStr) :
    ∀ (rs : List (Cell × Option PyStr)) (s : Spreadsheet),
      (rs.map Prod.fst).Nodup → (q, v) ∈ rs → (applyResults s rs).get q = v := by
  intro rs
  induction rs with
  | nil => intro s _ hmem; cases hmem
  | cons r rest ih =>
    intro s hnd hmem
    rcases List.mem_cons.mp hmem with rfl | hmem'
    · show (applyResults (s.set q v) rest).get q = v
      rw [applyResults_get_of_notmem q rest (s.set q v) ?_]
      · rw [get_set]
        exact if_pos rfl
      · intro p hp hpq
        have hq : q ∈ rest.map Prod.fst := List.mem_map.mpr ⟨p, hp, hpq⟩
        simp only [List.map_cons, List.nodup_cons] at hnd
        exact hnd.1 hq
    · refine ih (s.set r.1 r.2) ?_ hmem'
      simp only [List.map_cons, List.nodup_cons] at hnd
      exact hnd.2

theorem sum_eq_count_one (bs : List Int) (h : ∀ b ∈ bs, b = 0 ∨ b = 1) :
    bs.sum = (bs.count 1 : Int) := by
  induction bs with
  | nil => simp
  | cons b rest ih =>
    have hb := h b (List.mem_cons_self _ _)
    have ihr := ih (fun x hx => h x (List.mem_cons_of_mem _ hx))
    rcases hb with rfl | rfl <;>
      simp [List.sum_cons, List.count_cons, ihr] <;> push_cast <;> omega

theorem forall2_exists_mem {α β : Type} {R : α → β → Prop} :
    ∀ {l₁ : List α} {l₂ : List β}, List.Forall₂ R l₁ l₂ → ∀ a ∈ l₁, ∃ b, b ∈ l₂ ∧ R a b := by
  intro l₁ l₂ h
  induction h with
  | nil => intro a ha; cases ha
  | cons hab h2 ih =>
    intro x hx
    rcases List.mem_cons.mp hx with rfl | hx'
    · exact ⟨_, List.mem_cons_self _ _, hab⟩
    · obtain ⟨b, hb, hR⟩ := ih x hx'
      exact ⟨b, List.mem_cons_of_mem _ hb, hR⟩

theorem collect_map_fst (s : Spreadsheet) :
    ∀ {cells : List Cell} {rs : List (Cell × Option PyStr)},
      List.Forall₂ (fun c r => iterate_function_v2 c s = some r) cells rs →
      rs.map Prod.fst = cells := by
  intro cells rs h
  induction h with
  | nil => rfl
  | cons hab h2 ih => simp [List.map_cons, ih, iterate_v2_fst _ _ _ hab]

/-- C1: the evolve-selection command evaluates `iterate_function_v2` for
every position of the `include_empty=true` selection rectangle against the
pre-step grid, collects the `(position, new-value)` pairs into a buffer,
and only afterwards applies them via `set`: in the resulting grid every
selected position holds exactly the value computed from the pre-step grid
(so no evaluation can observe a same-generation write), and every other
position is untouched. -/
theorem evolveSelection_snapshot (s g' : Spreadsheet)
    (h : evolveSelection s = some g') :
    ∃ cells, s.get_selected_cells true = some cells ∧
      cells = specSelectedPositions s ∧
      (∀ q ∈ cells, ∃ v, iterate_function_v2 q s = some (q, v) ∧ g'.get q = v) ∧
      (∀ q, q ∉ cells → g'.get q = s.get q) := by
  have hc := get_selected_cells_true s
  unfold evolveSelection at h
  rw [hc] at h
  simp only [Option.bind_eq_bind, Option.some_bind] at h
  cases hrs : collectResults s (specSelectedPositions s) with
  | none => rw [hrs] at h; simp at h
  | some rs =>
    rw [hrs] at h
    simp only [Option.bind_eq_bind, Option.some_bind, Option.pure_def,
      Option.some.injEq] at h
    have hf := collectResults_forall2 s _ rs hrs
    have hfst : rs.map Prod.fst = specSelectedPositions s := collect_map_fst s hf
    refine ⟨_, hc, rfl, ?_, ?_⟩
    · intro q hq
      obtain ⟨r, hrmem, hqr⟩ := forall2_exists_mem hf q hq
      have hr1 : r.1 = q := iterate_v2_fst q s r hqr
      refine ⟨r.2, ?_, ?_⟩
      · obtain ⟨r1, r2⟩ := r
        simp only at hr1
        rw [hr1] at hqr
        exact hqr
      · rw [← h]
        apply applyResults_get_of_mem q r.2 rs s
        · rw [hfst]
          exact nodup_specSelectedPositions s
        · obtain ⟨r1, r2⟩ := r
          simp only at hr1
          rw [← hr1]
          exact hrmem
    · intro q hq
      rw [← h]
      apply applyResults_get_of_notmem
      intro r hrmem hr1
      exact hq (hfst ▸ List.mem_map.mpr ⟨r, hrmem, hr1⟩)

/-- Witness for C1 at a concrete input: the empty grid with
cursor = mark = (0,0) evolves to itself, and the theorem's conclusion
holds there. -/
theorem evolveSelection_snapshot_witness :
    ∃ cells, (Spreadsheet.mk [] ⟨0, 0⟩ ⟨0, 0⟩).get_selected_cells true = some cells ∧
      cells = specSelectedPositions (Spreadsheet.mk [] ⟨0, 0⟩ ⟨0, 0⟩) ∧
      (∀ q ∈ cells, ∃ v, iterate_function_v2 q (Spreadsheet.mk [] ⟨0, 0⟩ ⟨0, 0⟩) = some (q, v) ∧
        (Spreadsheet.mk [] ⟨0, 0⟩ ⟨0, 0⟩).get q = v) ∧
      (∀ q, q ∉ cells → (Spreadsheet.mk [] ⟨0, 0⟩ ⟨0, 0⟩).get q = (Spreadsheet.mk [] ⟨0, 0⟩ ⟨0, 0⟩).get q) :=
  evolveSelection_snapshot (Spreadsheet.mk [] ⟨0, 0⟩ ⟨0, 0⟩) (Spreadsheet.mk [] ⟨0, 0⟩ ⟨0, 0⟩)
    (by decide)

/-- C8: `bounding_box()` is the inclusive componentwise min/max rectangle of
cursor and mark, and `selected_positions(include_empty=true)` yields exactly
every position of that rectangle in row-major order; in particular
cursor=(2,5), mark=(0,1) gives min=(0,1), max=(2,5) and the 15 positions of
the 3×5 rectangle. -/
theorem selection_envelope_row_major :
    (∀ s : Spreadsheet,
      s.get_bounding_box =
        (Cell.mk (min s.cursor.row s.mark.row) (min s.cursor.col s.mark.col),
         Cell.mk (max s.cursor.row s.mark.row) (max s.cursor.col s.mark.col)) ∧
      s.get_selected_cells true = some (specSelectedPositions s)) ∧
    (∀ d : GridData,
      (Spreadsheet.mk d ⟨2, 5⟩ ⟨0, 1⟩).get_bounding_box = (⟨0, 1⟩, ⟨2, 5⟩) ∧
      (Spreadsheet.mk d ⟨2, 5⟩ ⟨0, 1⟩).get_selected_cells true = some
        [⟨0, 1⟩, ⟨0, 2⟩, ⟨0, 3⟩, ⟨0, 4⟩, ⟨0, 5⟩,
         ⟨1, 1⟩, ⟨1, 2⟩, ⟨1, 3⟩, ⟨1, 4⟩, ⟨1, 5⟩,
         ⟨2, 1⟩, ⟨2, 2⟩, ⟨2, 3⟩, ⟨2, 4⟩, ⟨2, 5⟩]) := by
  constructor
  · intro s
    exact ⟨rfl, get_selected_cells_true s⟩
  · intro d
    refine ⟨rfl, ?_⟩
    rw [get_selected_cells_true]
    rfl

/-- C9: on every grid state reachable by `set`/`delete` calls (including
states with an emptied row bucket), `selected_positions(include_empty=false)`
never raises — it returns a list, and that list contains only occupied
positions (so rows without stored cells contribute nothing). -/
theorem selected_positions_false_safe (s : Spreadsheet)
    (hreach : ReachableData s.data) :
    ∃ l, s.get_selected_cells false = some l ∧ ∀ c ∈ l, (s.get c).isSome :=
  get_selected_cells_false s

/-- Witness for C9 at a concrete reachable state: setting then deleting cell
(0,0) leaves the empty row bucket `[(0, [])]`, over which a 2×3 selection
still enumerates without error. -/
theorem selected_positions_false_safe_witness :
    delData (setData [] 0 0 ['x']) 0 0 = [(0, [])] ∧
    ReachableData (delData (setData [] 0 0 ['x']) 0 0) ∧
    ∃ l, (Spreadsheet.mk (delData (setData [] 0 0 ['x']) 0 0) ⟨0, 0⟩ ⟨1, 2⟩).get_selected_cells
        false = some l ∧
      ∀ c ∈ l, ((Spreadsheet.mk (delData (setData [] 0 0 ['x']) 0 0) ⟨0, 0⟩ ⟨1, 2⟩).get c).isSome :=
  ⟨by decide,
   ReachableData.delStep _ 0 0 (ReachableData.setStep _ 0 0 ['x'] ReachableData.empty),
   selected_positions_false_safe _
     (ReachableData.delStep _ 0 0 (ReachableData.setStep _ 0 0 ['x'] ReachableData.empty))⟩

/-- C2: when the target's decoded state and all eight Moore-neighbor decoded
states lie in {0,1}, Variant B returns the colorized tag
`bg(0,0,0);fg(0,0,0)??1` exactly when a live cell has 2 or 3 live neighbors
or a dead cell has exactly 3, and absent (`None`) otherwise — a "0" outcome
is always returned as absent, never as a stored "0". -/
theorem iterateV2_life_rule (s : Spreadsheet) (c : Cell) (a : Int) (bs : List Int)
    (hcur : getContentV2 (s.get ⟨c.row, c.col⟩) = some a)
    (hns : mapOptList (fun q => getContentV2 (s.get q)) (v2NeighborCells c) = some bs)
    (ha : a = 0 ∨ a = 1) (hbs : ∀ b ∈ bs, b = 0 ∨ b = 1) :
    iterate_function_v2 c s =
      some (c,
        if (a = 1 ∧ (bs.count 1 = 2 ∨ bs.count 1 = 3)) ∨ (a = 0 ∧ bs.count 1 = 3)
        then some ("bg(0,0,0);fg(0,0,0)??1".toList) else none) := by
  unfold iterate_function_v2
  rw [hcur, hns]
  simp only [Option.bind_eq_bind, Option.some_bind]
  rw [sum_eq_count_one bs hbs]
  have hc0 : colorizeV2 ("0".toList) = none := by decide
  have hc1 : colorizeV2 ("1".toList) = some ("bg(0,0,0);fg(0,0,0)??1".toList) := by decide
  rw [hc0, hc1]
  rcases ha with rfl | rfl <;>
    · simp only [Option.pure_def]
      norm_num
      split_ifs <;> first | rfl | (exfalso; omega)

/-- Witness for C2: a dead cell at (1,1) under three live neighbors in row 0
is born. -/
theorem iterateV2_life_rule_witness :
    iterate_function_v2 ⟨1, 1⟩
        (Spreadsheet.mk
          [(0, [(0, "bg(0,0,0);fg(0,0,0)??1".toList), (1, "bg(0,0,0);fg(0,0,0)??1".toList),
                (2, "bg(0,0,0);fg(0,0,0)??1".toList)])] ⟨0, 0⟩ ⟨0, 0⟩) =
      some (⟨1, 1⟩, some ("bg(0,0,0);fg(0,0,0)??1".toList)) :=
  (iterateV2_life_rule
      (Spreadsheet.mk
        [(0, [(0, "bg(0,0,0);fg(0,0,0)??1".toList), (1, "bg(0,0,0);fg(0,0,0)??1".toList),
              (2, "bg(0,0,0);fg(0,0,0)??1".toList)])] ⟨0, 0⟩ ⟨0, 0⟩)
      ⟨1, 1⟩ 0 [1, 1, 1, 0, 0, 0, 0, 0] (by decide) (by decide) (Or.inl rfl)
      (by decide)).trans (by decide)

/-- C10: Variant B sums the parsed neighbor states rather than counting live
neighbors: with a single neighbor holding content parsing to 3 (all others
absent) an empty target cell is born live. -/
theorem iterateV2_sum_not_count :
    (Spreadsheet.mk [(0, [(0, "3".toList)])] ⟨0, 0⟩ ⟨0, 0⟩).get ⟨1, 1⟩ = none ∧
    getContentV2 ((Spreadsheet.mk [(0, [(0, "3".toList)])] ⟨0, 0⟩ ⟨0, 0⟩).get ⟨0, 0⟩) = some 3 ∧
    (v2NeighborCells ⟨1, 1⟩).map
        (fun q => (Spreadsheet.mk [(0, [(0, "3".toList)])] ⟨0, 0⟩ ⟨0, 0⟩).get q) =
      [some ("3".toList), none, none, none, none, none, none, none] ∧
    iterate_function_v2 ⟨1, 1⟩ (Spreadsheet.mk [(0, [(0, "3".toList)])] ⟨0, 0⟩ ⟨0, 0⟩) =
      some (⟨1, 1⟩, some ("bg(0,0,0);fg(0,0,0)??1".toList)) := by
  refine ⟨by decide, by decide, by decide, by decide⟩

theorem iterate_v1_eq (s : Spreadsheet) (c : Cell) (hget : s.get c = none) :
    iterate_function_v1 c s =
      (if (v1Parents c s).countP isValidParent < 3 ∧ (v1Parents c s).countP isValidParent > 0
       then some (c, some (colorizeV1 ("0".toList)))
       else if (v1Parents c s).countP isValidParent = 0 then some (c, none)
       else do
         let key ← concat3 (getContentV1 (s.get ⟨c.row - 1, c.col - 1⟩))
           (getContentV1 (s.get ⟨c.row - 1, c.col⟩))
           (getContentV1 (s.get ⟨c.row - 1, c.col + 1⟩))
         let bit ← val_map key
         pure (c, some (colorizeV1 bit))) := by
  simp only [iterate_function_v1, v1Parents, hget]

/-- C3: on an empty target with three valid parents, Variant A concatenates
the parent contents in (top-left, top-center, top-right) order, looks the
3-bit pattern up in `val_map` (the fixed rule string under MSB-first
ordering), and colorizes the resulting bit; pattern "101" selects index 2 of
the rule string. -/
theorem iterateV1_three_parents :
    (∀ (s : Spreadsheet) (c : Cell) (p1 p2 p3 : PyStr),
      s.get c = none →
      getContentV1 (s.get ⟨c.row - 1, c.col - 1⟩) = some p1 →
      getContentV1 (s.get ⟨c.row - 1, c.col⟩) = some p2 →
      getContentV1 (s.get ⟨c.row - 1, c.col + 1⟩) = some p3 →
      (p1 = "0".toList ∨ p1 = "1".toList) →
      (p2 = "0".toList ∨ p2 = "1".toList) →
      (p3 = "0".toList ∨ p3 = "1".toList) →
      ∃ bit, val_map (p1 ++ p2 ++ p3) = some bit ∧
        iterate_function_v1 c s = some (c, some (colorizeV1 bit))) ∧
    val_map ("101".toList) = (ruleStr.toList.get? 2).map (fun ch => [ch]) := by
  constructor
  · intro s c p1 p2 p3 hget h1 h2 h3 hp1 hp2 hp3
    have heq := iterate_v1_eq s c hget
    simp only [v1Parents, h1, h2, h3] at heq
    rcases hp1 with rfl | rfl <;> rcases hp2 with rfl | rfl <;> rcases hp3 with rfl | rfl <;>
      · rw [heq]
        exact ⟨_, rfl, rfl⟩
  · rfl

/-- C4: Variant A passes an occupied cell's raw value through unchanged; on
an empty cell with 0 valid parents the result is absent, and with exactly 1
or 2 valid parents it is the colorized dead tag
`bg(255,255,255);fg(255,255,255)??0`. -/
theorem iterateV1_frozen_incomplete (s : Spreadsheet) (c : Cell) :
    (∀ v, s.get c = some v → iterate_function_v1 c s = some (c, some v)) ∧
    (s.get c = none →
      ((v1Parents c s).countP isValidParent = 0 → iterate_function_v1 c s = some (c, none)) ∧
      ((v1Parents c s).countP isValidParent = 1 ∨ (v1Parents c s).countP isValidParent = 2 →
        iterate_function_v1 c s =
          some (c, some ("bg(255,255,255);fg(255,255,255)??0".toList)))) := by
  constructor
  · intro v hv
    simp only [iterate_function_v1, hv]
  · intro hget
    have heq := iterate_v1_eq s c hget
    constructor
    · intro hcount
      rw [heq, hcount]
      norm_num
    · intro hcount
      rw [heq]
      rcases hcount with h | h <;>
        · rw [h]
          norm_num
          rfl

/-- Witness for C3: row 0 holds contents "1","0","1"; evaluating (1,1) reads
parents "1","0","1" and produces the rule bit for pattern "101". -/
theorem iterateV1_three_parents_witness :
    ∃ bit, val_map ("1".toList ++ "0".toList ++ "1".toList) = some bit ∧
      iterate_function_v1 ⟨1, 1⟩
        (Spreadsheet.mk [(0, [(0, "1".toList), (1, "0".toList), (2, "1".toList)])]
          ⟨0, 0⟩ ⟨0, 0⟩) =
        some (⟨1, 1⟩, some (colorizeV1 bit)) :=
  iterateV1_three_parents.1
    (Spreadsheet.mk [(0, [(0, "1".toList), (1, "0".toList), (2, "1".toList)])] ⟨0, 0⟩ ⟨0, 0⟩)
    ⟨1, 1⟩ ("1".toList) ("0".toList) ("1".toList)
    (by decide) (by decide) (by decide) (by decide)
    (Or.inr rfl) (Or.inl rfl) (Or.inr rfl)

/-- Witness for C4: an occupied cell passes through, an isolated empty cell
stays absent, and an empty cell over one valid parent gets the dead tag. -/
theorem iterateV1_frozen_incomplete_witness :
    iterate_function_v1 ⟨0, 0⟩ (Spreadsheet.mk [(0, [(0, "7".toList)])] ⟨0, 0⟩ ⟨0, 0⟩) =
      some (⟨0, 0⟩, some ("7".toList)) ∧
    iterate_function_v1 ⟨5, 5⟩ (Spreadsheet.mk [] ⟨0, 0⟩ ⟨0, 0⟩) = some (⟨5, 5⟩, none) ∧
    iterate_function_v1 ⟨1, 1⟩ (Spreadsheet.mk [(0, [(0, "1".toList)])] ⟨0, 0⟩ ⟨0, 0⟩) =
      some (⟨1, 1⟩, some ("bg(255,255,255);fg(255,255,255)??0".toList)) :=
  ⟨(iterateV1_frozen_incomplete _ _).1 ("7".toList) (by decide),
   ((iterateV1_frozen_incomplete _ _).2 (by decide)).1 (by decide),
   ((iterateV1_frozen_incomplete _ _).2 (by decide)).2 (Or.inl (by decide))⟩

theorem noQQ_splitSS : ∀ v : PyStr, hasQQ v = false → splitSS v = [v]
  | [], _ => rfl
  | [c], _ => rfl
  | c1 :: c2 :: rest, h => by
    have hp : ¬(c1 = '?' ∧ c2 = '?') := by
      intro hc
      simp [hasQQ, hc.1, hc.2] at h
    have ht : hasQQ (c2 :: rest) = false := by
      simp only [hasQQ, Bool.or_eq_false_iff] at h
      exact h.2
    simp only [splitSS, if_neg hp, noQQ_splitSS (c2 :: rest) ht]

theorem hasQQ_append_sep : ∀ (a t : PyStr), hasQQ (a ++ '?' :: '?' :: t) = true
  | [], t => by simp [hasQQ]
  | [c], t => by simp [hasQQ]
  | c1 :: c2 :: a'', t => by
    have ih := hasQQ_append_sep (c2 :: a'') t
    simp only [List.cons_append] at ih ⊢
    simp [hasQQ, ih]

theorem splitSS_append_sep : ∀ (a t : PyStr), hasQQ a = false → a.getLast? ≠ some '?' →
    splitSS (a ++ '?' :: '?' :: t) = a :: splitSS t
  | [], t, _, _ => by simp [splitSS]
  | [c], t, _, hl => by
    have hc : c ≠ '?' := fun hx => hl (by simp [hx])
    simp [splitSS, hc]
  | c1 :: c2 :: a'', t, ha, hl => by
    have hp : ¬(c1 = '?' ∧ c2 = '?') := by
      intro hc
      simp [hasQQ, hc.1, hc.2] at ha
    have ha' : hasQQ (c2 :: a'') = false := by
      simp only [hasQQ, Bool.or_eq_false_iff] at ha
      exact ha.2
    have hl' : (c2 :: a'').getLast? ≠ some '?' := by
      rwa [List.getLast?_cons_cons] at hl
    have ih := splitSS_append_sep (c2 :: a'') t ha' hl'
    simp only [List.cons_append] at ih ⊢
    simp only [splitSS, if_neg hp, ih]

/-- Counterexample for C5: for the raw value `"a??b??c"`, whose part after
the first separator is `"b??c"`, the draw-site decode raises (`split`
produces three parts and the two-way unpack fails) and `get_content`
returns only `"b"` — the content does not retain the later separator. -/
theorem decode_first_split_counterexample :
    "a??b??c".toList = "a".toList ++ '?' :: '?' :: ("b".toList ++ '?' :: '?' :: "c".toList) ∧
    decodeDraw ("a??b??c".toList) = none ∧
    getContentV1 (some ("a??b??c".toList)) = some ("b".toList) ∧
    "b".toList ≠ "b??c".toList :=
  ⟨by decide, by decide, by decide, by decide⟩

theorem splitSS_ne_nil : ∀ v : PyStr, splitSS v ≠ []
  | [] => by simp [splitSS]
  | [c] => by simp [splitSS]
  | c1 :: c2 :: rest => by
    simp only [splitSS]
    split_ifs
    · simp
    · cases h : splitSS (c2 :: rest) <;> simp

/-- C5 (amended): decoding splits on every occurrence of `"??"`.  With no
separator it returns `(None, raw)`; with exactly one separator the
formatting is the part before and the content the part after; with two or
more separators (the tail `c` below is arbitrary, so it may contain any
number of further separators) the draw-site two-way unpack raises and
`get_content` returns only the segment between the first and second
separators. -/
theorem decode_split_amended :
    (∀ raw : PyStr, hasQQ raw = false →
      decodeDraw raw = some (none, raw) ∧ getContentV1 (some raw) = some raw) ∧
    (∀ f c : PyStr, hasQQ f = false → f.getLast? ≠ some '?' → hasQQ c = false →
      decodeDraw (f ++ '?' :: '?' :: c) = some (some f, c) ∧
      getContentV1 (some (f ++ '?' :: '?' :: c)) = some c) ∧
    (∀ a b c : PyStr, hasQQ a = false → a.getLast? ≠ some '?' →
      hasQQ b = false → b.getLast? ≠ some '?' →
      decodeDraw (a ++ '?' :: '?' :: (b ++ '?' :: '?' :: c)) = none ∧
      getContentV1 (some (a ++ '?' :: '?' :: (b ++ '?' :: '?' :: c))) = some b) := by
  refine ⟨?_, ?_, ?_⟩
  · intro raw h
    constructor
    · simp [decodeDraw, h]
    · simp [getContentV1, h]
  · intro f c hf hl hc
    have hq := hasQQ_append_sep f c
    have hs : splitSS (f ++ '?' :: '?' :: c) = [f, c] := by
      rw [splitSS_append_sep f c hf hl, noQQ_splitSS c hc]
    constructor
    · simp [decodeDraw, hq, hs]
    · simp [getContentV1, hq, hs]
  · intro a b c ha hla hb hlb
    have hq := hasQQ_append_sep a (b ++ '?' :: '?' :: c)
    have hs : splitSS (a ++ '?' :: '?' :: (b ++ '?' :: '?' :: c)) = a :: b :: splitSS c := by
      rw [splitSS_append_sep a _ ha hla, splitSS_append_sep b c hb hlb]
    obtain ⟨x, t, hxt⟩ : ∃ x t, splitSS c = x :: t := by
      cases hc : splitSS c with
      | nil => exact absurd hc (splitSS_ne_nil c)
      | cons x t => exact ⟨x, t, rfl⟩
    constructor
    · simp [decodeDraw, hq, hs, hxt]
    · simp [getContentV1, hq, hs, hxt]

/-- Witness for the amended C5 on concrete strings: no separator, one
separator, two separators, and three separators (the raw value
`"a??b??c??d"`). -/
theorem decode_split_amended_witness :
    (decodeDraw ("xy".toList) = some (none, "xy".toList) ∧
      getContentV1 (some ("xy".toList)) = some ("xy".toList)) ∧
    (decodeDraw ("f".toList ++ '?' :: '?' :: "c".toList) =
        some (some ("f".toList), "c".toList) ∧
      getContentV1 (some ("f".toList ++ '?' :: '?' :: "c".toList)) = some ("c".toList)) ∧
    (decodeDraw ("a".toList ++ '?' :: '?' :: ("b".toList ++ '?' :: '?' :: "c".toList)) = none ∧
      getContentV1 (some ("a".toList ++ '?' :: '?' :: ("b".toList ++ '?' :: '?' :: "c".toList))) =
        some ("b".toList)) ∧
    (decodeDraw ("a".toList ++ '?' :: '?' :: ("b".toList ++ '?' :: '?' :: "c??d".toList)) =
        none ∧
      getContentV1
          (some ("a".toList ++ '?' :: '?' :: ("b".toList ++ '?' :: '?' :: "c??d".toList))) =
        some ("b".toList)) :=
  ⟨decode_split_amended.1 ("xy".toList) (by decide),
   decode_split_amended.2.1 ("f".toList) ("c".toList) (by decide) (by decide) (by decide),
   decode_split_amended.2.2 ("a".toList) ("b".toList) ("c".toList)
     (by decide) (by decide) (by decide) (by decide),
   decode_split_amended.2.2 ("a".toList) ("b".toList) ("c??d".toList)
     (by decide) (by decide) (by decide) (by decide)⟩

/-- The content segment Variant B actually parses: the part of the split
between the first and second separators when `"??"` occurs, otherwise the
whole raw value. -/
def contentSegment (v : PyStr) : PyStr :=
  if hasQQ v then ((splitSS v).drop 1).headD [] else v

theorem getContentV2_eq_parse (v : PyStr) :
    getContentV2 (some v) = parsePyInt (contentSegment v) := by
  unfold getContentV2 contentSegment
  by_cases h : hasQQ v
  · simp only [h, if_true]
    rcases hs : splitSS v with _ | ⟨x, _ | ⟨c, rest⟩⟩ <;> simp [hs] <;> rfl
  · simp [h]

theorem mapOptList_eq_none_of_mem {α β : Type} (f : α → Option β) :
    ∀ (l : List α) (a : α), a ∈ l → f a = none → mapOptList f l = none := by
  intro l
  induction l with
  | nil => intro a ha; cases ha
  | cons b l' ih =>
    intro a ha hfa
    rcases List.mem_cons.mp ha with rfl | ha'
    · simp [mapOptList, hfa]
    · cases hfb : f b with
      | none => simp [mapOptList, hfb]
      | some w => simp [mapOptList, hfb, ih a ha' hfa]

/-- Counterexample for C7: the raw value `"a??1??2"` has `"1??2"` after its
first separator — which does not parse as an integer — yet Variant B
evaluates the cell holding it without error (it parses only the `"1"`
between the first and second separators). -/
theorem v2_parse_error_counterexample :
    "a??1??2".toList = "a".toList ++ '?' :: '?' :: "1??2".toList ∧
    parsePyInt ("1??2".toList) = none ∧
    iterate_function_v2 ⟨0, 0⟩ (Spreadsheet.mk [(0, [(0, "a??1??2".toList)])] ⟨0, 0⟩ ⟨0, 0⟩) =
      some (⟨0, 0⟩, none) :=
  ⟨by decide, by decide, by decide⟩

/-- C7 (amended): when the target cell or any Moore neighbor stores a raw
value whose segment between the first and second separators (the whole
string when no separator occurs) does not parse as an integer, Variant B's
evaluation propagates the parse error — it never coerces the value to 0. -/
theorem v2_parse_error_amended (s : Spreadsheet) (c q : Cell) (v : PyStr)
    (hq : q = ⟨c.row, c.col⟩ ∨ q ∈ v2NeighborCells c)
    (hv : s.get q = some v)
    (hparse : parsePyInt (contentSegment v) = none) :
    iterate_function_v2 c s = none := by
  have hget : getContentV2 (s.get q) = none := by
    rw [hv, getContentV2_eq_parse v, hparse]
  unfold iterate_function_v2
  rcases hq with rfl | hq
  · simp [hget]
  · cases hcur : getContentV2 (s.get ⟨c.row, c.col⟩) with
    | none => simp [hcur]
    | some a =>
      have hns : mapOptList (fun p => getContentV2 (s.get p)) (v2NeighborCells c) = none :=
        mapOptList_eq_none_of_mem _ _ q hq hget
      simp [hcur, hns]

/-- Witness for the amended C7: a neighbor storing `"abc"` makes the
evaluation of (1,1) raise. -/
theorem v2_parse_error_amended_witness :
    iterate_function_v2 ⟨1, 1⟩ (Spreadsheet.mk [(0, [(0, "abc".toList)])] ⟨0, 0⟩ ⟨0, 0⟩) = none :=
  v2_parse_error_amended
    (Spreadsheet.mk [(0, [(0, "abc".toList)])] ⟨0, 0⟩ ⟨0, 0⟩) ⟨1, 1⟩ ⟨0, 0⟩ ("abc".toList)
    (Or.inr (by decide)) (by decide) (by decide)

theorem matchColor_sound (tag : List Char) :
    ∀ (cs : List Char) (v : Nat × Nat × Nat), matchColor tag cs = some v →
      ∃ a b, cs = a ++ b ∧ '\n' ∉ a ∧ parseColorAt tag b = some v := by
  intro cs
  induction cs with
  | nil => intro v h; simp [matchColor] at h
  | cons c rest ih =>
    intro v h
    unfold matchColor at h
    by_cases hc : c = '\n'
    · rw [if_pos hc] at h
      simp only [Option.none_orElse] at h
      exact ⟨[], c :: rest, rfl, by simp, h⟩
    · rw [if_neg hc] at h
      cases hm : matchColor tag rest with
      | none =>
        rw [hm] at h
        simp only [Option.none_orElse] at h
        exact ⟨[], c :: rest, rfl, by simp, h⟩
      | some w =>
        rw [hm] at h
        simp only [Option.some_orElse, Option.some.injEq] at h
        obtain ⟨a, b, hab, hna, hp⟩ := ih w hm
        refine ⟨c :: a, b, by rw [hab, List.cons_append], ?_, ?_⟩
        · intro hmem
          rcases List.mem_cons.mp hmem with he | hmem'
          · exact hc he.symm
          · exact hna hmem'
        · rw [← h]
          exact hp

theorem matchColor_complete (tag : List Char) :
    ∀ (a b : List Char) (v : Nat × Nat × Nat), '\n' ∉ a → parseColorAt tag b = some v →
      (matchColor tag (a ++ b)).isSome := by
  intro a
  induction a with
  | nil =>
    intro b v _ hp
    cases b with
    | nil => cases tag <;> simp [parseColorAt, stripPre] at hp
    | cons c b' =>
      rcases hx : (if c = '\n' then none else matchColor tag b') with _ | w <;>
        simp [matchColor, hx, hp]
  | cons c a' ih =>
    intro b v hna hp
    have hc : c ≠ '\n' := fun h => hna (h ▸ List.mem_cons_self c a')
    have hna' : '\n' ∉ a' := fun h => hna (List.mem_cons_of_mem _ h)
    have ihh := ih b v hna' hp
    simp only [List.cons_append]
    simp only [matchColor]
    rw [if_neg hc]
    cases hm : matchColor tag (a' ++ b) with
    | none => rw [hm] at ihh; simp at ihh
    | some w => simp [hm]

/-- Counterexample for C6: the formatting string `"\nbg(1,2,3)"` contains a
well-formed `bg(r,g,b)` directive, yet extraction yields the defaults —
`re.match` with a leading greedy `.*` never crosses the newline. -/
theorem extract_colors_counterexample :
    ("\n".toList ++ "bg(1,2,3)".toList : PyStr) = '\n' :: "bg(1,2,3)".toList ∧
    parseColorAt ['b', 'g'] ("bg(1,2,3)".toList) = some (1, 2, 3) ∧
    extract_colors (some ('\n' :: "bg(1,2,3)".toList)) = (none, (0, 0, 0)) :=
  ⟨by decide, by decide, by decide⟩

/-- C6 (amended): color extraction is total (never raises).  The background
is absent exactly when no `bg(r,g,b)` directive occurs with only
newline-free text before it, and a present background carries the integer
channels of such an occurrence; the foreground defaults to black (0,0,0)
when no such `fg(r,g,b)` occurrence exists, and a successful foreground
match yields the channels of such an occurrence. -/
theorem extract_colors_never_raises (f : PyStr) :
    ((extract_colors (some f)).1 = none ↔
      ¬ ∃ a b v, f = a ++ b ∧ '\n' ∉ a ∧ parseColorAt ['b', 'g'] b = some v) ∧
    (∀ v, (extract_colors (some f)).1 = some v →
      ∃ a b, f = a ++ b ∧ '\n' ∉ a ∧ parseColorAt ['b', 'g'] b = some v) ∧
    ((¬ ∃ a b v, f = a ++ b ∧ '\n' ∉ a ∧ parseColorAt ['f', 'g'] b = some v) →
      (extract_colors (some f)).2 = (0, 0, 0)) ∧
    (∀ v, matchColor ['f', 'g'] f = some v →
      (extract_colors (some f)).2 = v ∧
      ∃ a b, f = a ++ b ∧ '\n' ∉ a ∧ parseColorAt ['f', 'g'] b = some v) := by
  have hbg : (extract_colors (some f)).1 = matchColor ['b', 'g'] f := rfl
  have hfg : (extract_colors (some f)).2 = (matchColor ['f', 'g'] f).getD (0, 0, 0) := rfl
  refine ⟨?_, ?_, ?_, ?_⟩
  · rw [hbg]
    constructor
    · rintro h ⟨a, b, v, rfl, hna, hp⟩
      have := matchColor_complete ['b', 'g'] a b v hna hp
      rw [h] at this
      simp at this
    · intro h
      cases hm : matchColor ['b', 'g'] f with
      | none => rfl
      | some w =>
        obtain ⟨a, b, hab, hna, hp⟩ := matchColor_sound ['b', 'g'] f w hm
        exact absurd ⟨a, b, w, hab, hna, hp⟩ h
  · intro v hv
    rw [hbg] at hv
    exact matchColor_sound ['b', 'g'] f v hv
  · intro h
    rw [hfg]
    cases hm : matchColor ['f', 'g'] f with
    | none => rfl
    | some w =>
      obtain ⟨a, b, hab, hna, hp⟩ := matchColor_sound ['f', 'g'] f w hm
      exact absurd ⟨a, b, w, hab, hna, hp⟩ h
  · intro v hm
    refine ⟨by rw [hfg, hm]; rfl, ?_⟩
    exact matchColor_sound ['f', 'g'] f v hm

/-- Witness for the amended C6 on the standard tag string. -/
theorem extract_colors_never_raises_witness :
    (extract_colors (some ("bg(10,20,30);fg(1,2,3)".toList))).1 = some (10, 20, 30) ∧
    (extract_colors (some ("bg(10,20,30);fg(1,2,3)".toList))).2 = (1, 2, 3) ∧
    ∃ a b, "bg(10,20,30);fg(1,2,3)".toList = a ++ b ∧ '\n' ∉ a ∧
      parseColorAt ['b', 'g'] b = some (10, 20, 30) :=
  ⟨by decide, by decide,
   (extract_colors_never_raises ("bg(10,20,30);fg(1,2,3)".toList)).2.1 (10, 20, 30) (by decide)⟩
